import Mathlib

/-!
Verification of the chapter/page discovery and selection engine of the
comick manga downloader (`src/main.py`), shallowly embedded in Lean.

Python strings are modelled as Lean `String`/`List Char`; the three
regular expressions of the source (`chapter-[0-9]*\.?[0-9]`, `page [0-9]*`,
`/[0-9]*-`) are embedded as hand-rolled leftmost-search matchers with
Python's greedy-with-backtracking semantics; fallible Python code
(list indexing, `int()` conversion, tuple unpacking) is modelled with
`Option`, where `none` stands for an uncaught Python exception.
-/

namespace ComickDL

/-! ### Python string primitives -/

/-- Helper for `splitChar`: prepend a character to the first piece. -/
def consHead (c : Char) : List (List Char) → List (List Char)
  | [] => [[c]]
  | l :: ls => (c :: l) :: ls

/-- Python `str.split(sep)` for a single-character separator `sep`
(the source only splits on `"/"`, `"."`, `"-"` and `","`).
`splitChar c []` is `[[]]`, matching Python's `"".split(c) == [""]`. -/
def splitChar (sep : Char) : List Char → List (List Char)
  | [] => [[]]
  | c :: rest =>
      if c = sep then [] :: splitChar sep rest
      else consHead c (splitChar sep rest)

/-- Version of `splitChar` on `String`s. -/
def splitStr (sep : Char) (s : String) : List String :=
  (splitChar sep s.data).map List.asString

/-- Python's substring test `pat in s` on character lists. -/
def containsSub (pat : List Char) : List Char → Bool
  | [] => pat.isEmpty
  | c :: rest => pat.isPrefixOf (c :: rest) || containsSub pat rest

/-- Python's substring test `pat in s` on `String`s. -/
def strContains (pat s : String) : Bool :=
  containsSub pat.data s.data

/-- Longest leading run of ASCII digits, and the remainder
(the greedy step of `[0-9]*` in all three source regexes). -/
def takeDigits : List Char → List Char × List Char
  | [] => ([], [])
  | c :: rest =>
      if c.isDigit then
        let p := takeDigits rest
        (c :: p.1, p.2)
      else ([], c :: rest)

/-- Worker for Python's whitespace `str.split()` (no separator argument):
splits on runs of whitespace and drops empty pieces. -/
def splitWsAux : List Char → List Char → List (List Char)
  | [], acc => if acc.isEmpty then [] else [acc.reverse]
  | c :: rest, acc =>
      if c.isWhitespace then
        if acc.isEmpty then splitWsAux rest []
        else acc.reverse :: splitWsAux rest []
      else splitWsAux rest (c :: acc)

/-- Python `str.split()` (whitespace split, empty pieces dropped). -/
def pySplitWs (s : String) : List String :=
  (splitWsAux s.data []).map List.asString

/-- Python string truthiness of a nullable attribute value
(`None` and `""` are falsy). -/
def truthyStr : Option String → Bool
  | none => false
  | some s => s != ""

/-- Unwrap a nullable attribute value (only ever used behind a
`truthyStr` guard in the embedded code, where it is `some`). -/
def optStr : Option String → String
  | none => ""
  | some s => s

/-! ### Identifier extraction (src/main.py lines 45-84) -/

/-- Tail of the regex `chapter-[0-9]*\.?[0-9]`: what `[0-9]*\.?[0-9]`
matches (greedily, with backtracking) at the start of `cs`, if anything. -/
def chapterTailMatch (cs : List Char) : Option (List Char) :=
  match takeDigits cs with
  | ([], '.' :: c :: _) => if c.isDigit then some ['.', c] else none
  | ([], _) => none
  | (d, '.' :: c :: _) => if c.isDigit then some (d ++ ['.', c]) else some d
  | (d, _) => some d

/-- Search (Python `re.search`) for `chapter-[0-9]*\.?[0-9]`: leftmost starting position
whose text begins with `chapter-` and continues with a numeric tail. -/
def searchChapterPat : List Char → Option (List Char)
  | [] => none
  | c :: rest =>
      if "chapter-".data.isPrefixOf (c :: rest) then
        match chapterTailMatch ((c :: rest).drop 8) with
        | some m => some ("chapter-".data ++ m)
        | none => searchChapterPat rest
      else searchChapterPat rest

/-- Embeds `extract_chapter_number` (src/main.py lines 45-53):
`m.group().split("-")[1]` on a match, `"0"` otherwise.
`none` models a Python exception (never actually raised here). -/
def extract_chapter_number (text : String) : Option String :=
  match searchChapterPat text.data with
  | some m => ((splitChar '-' m).map List.asString).get? 1
  | none => some "0"

/-- Search (Python `re.search`) for `page [0-9]*`: leftmost occurrence of the literal
`"page "`, extended by the (possibly empty) greedy digit run. -/
def searchPagePat : List Char → Option (List Char)
  | [] => none
  | c :: rest =>
      if "page ".data.isPrefixOf (c :: rest) then
        some ("page ".data ++ (takeDigits ((c :: rest).drop 5)).1)
      else searchPagePat rest

/-- Embeds `extract_page_number` (src/main.py lines 56-64):
`m.group().split()[1]` on a match, `"0"` otherwise.  `none` models the
IndexError raised when the matched digit run is empty. -/
def extract_page_number (text : String) : Option String :=
  match searchPagePat text.data with
  | some m => ((splitWsAux m []).map List.asString).get? 1
  | none => some "0"

/-- Embeds `extract_file_extension` (src/main.py lines 67-73):
last `/`-segment, split on `.`; last part if at least two, else `"jpg"`.
Note: the source performs no lowercasing. -/
def extract_file_extension (text : String) : String :=
  let ext := splitChar '.' ((splitChar '/' text.data).getLastD [])
  if 2 ≤ ext.length then (ext.getLastD []).asString else "jpg"

/-- Match of the regex `/[0-9]*-` anchored at the head of `cs`:
a `/`, then the greedy digit run, then a `-`. -/
def slashNumDashAt : List Char → Bool
  | [] => false
  | c :: rest => c == '/' && (takeDigits rest).2.head? == some '-'

/-- Search (Python `re.search`) for `/[0-9]*-`: does the pattern match anywhere? -/
def searchSlashNumDash : List Char → Bool
  | [] => false
  | c :: rest => slashNumDashAt (c :: rest) || searchSlashNumDash rest

/-- Embeds `is_cover_image` (src/main.py lines 76-84): true iff the regex
`/[0-9]*-` does not match anywhere in the URL. -/
def is_cover_image (image_src : String) : Bool :=
  !searchSlashNumDash image_src.data

/-! ### Data model (src/main.py lines 31-42) -/

/-- Python `class Page` — one content image of a chapter. -/
structure Page where
  number : String
  image_url : String
  deriving DecidableEq, Repr

/-- Python `class Chapter` — one chapter of the series. -/
structure Chapter where
  id : String
  number : String
  url : String
  pages : List Page := []
  deriving DecidableEq, Repr

/-- An `<img>` DOM element as seen through
`get_attribute("src")` / `get_attribute("alt")` (both nullable). -/
structure ImgElement where
  src : Option String
  alt : Option String
  deriving DecidableEq, Repr

/-! ### Page collector (src/main.py lines 103-122) -/

/-- Embeds `collect_pages`: keep every image whose `src` is truthy and contains
`".pictures/"` and whose `alt` is truthy, appending
`Page(extract_page_number(alt), src)` in DOM order.  `none` models the
IndexError that `extract_page_number` can raise. -/
def collect_pages : List ImgElement → Option (List Page)
  | [] => some []
  | img :: rest =>
      if !truthyStr img.src || !strContains ".pictures/" (optStr img.src) then
        collect_pages rest
      else if truthyStr img.alt then
        match extract_page_number (optStr img.alt) with
        | none => none
        | some pn =>
            match collect_pages rest with
            | none => none
            | some ps => some (⟨pn, optStr img.src⟩ :: ps)
      else collect_pages rest

/-! ### Chapter selector (src/main.py lines 177-184 and 218-234) -/

/-- Digit run with single underscores between digits, the shape accepted
by Python `int()` after sign and whitespace stripping. -/
def digitsUS : List Char → Bool
  | [] => false
  | [c] => c.isDigit
  | c :: '_' :: rest => c.isDigit && digitsUS rest
  | c :: rest => c.isDigit && digitsUS rest

/-- Decimal value of a digit run (underscores already removed). -/
def digitsVal : List Char → Nat → Nat
  | [], acc => acc
  | c :: rest, acc => digitsVal rest (acc * 10 + (c.toNat - '0'.toNat))

/-- Strip leading and trailing whitespace, as Python `int()` does. -/
def stripWs (cs : List Char) : List Char :=
  ((cs.dropWhile Char.isWhitespace).reverse.dropWhile Char.isWhitespace).reverse

/-- Unsigned part of Python `int()`. -/
def pyNatPart (cs : List Char) : Option Nat :=
  if digitsUS cs then some (digitsVal (cs.filter fun c => c != '_') 0) else none

/-- Python `int(s)`; `none` models the ValueError on malformed input. -/
def pyInt (s : String) : Option Int :=
  match stripWs s.data with
  | '+' :: rest => (pyNatPart rest).map Int.ofNat
  | '-' :: rest => (pyNatPart rest).map fun n => -(n : Int)
  | rest => (pyNatPart rest).map Int.ofNat

/-- Python `range(a, b + 1)` as a list: the integers of `[a, b]`. -/
def intRangeIncl (a b : Int) : List Int :=
  (List.range (b + 1 - a).toNat).map fun i => a + (i : Int)

/-- Embeds `expand_range` (src/main.py lines 177-184):
`start, end = num.split("-")`, then `str(j)` for `j` in
`range(int(start), int(end) + 1)`.  `none` models the ValueError from
tuple unpacking or `int()`. -/
def expand_range (num : String) : Option (List String) :=
  match (splitChar '-' num.data).map List.asString with
  | [s, e] =>
      match pyInt s, pyInt e with
      | some a, some b => some ((intRangeIncl a b).map toString)
      | _, _ => none
  | _ => none

/-- One term of the `--chapters` spec: ranges expand, bare terms are kept
verbatim (src/main.py lines 223-228 and 230-234). -/
def expandTerm (t : String) : Option (List String) :=
  if strContains "-" t then expand_range t else some [t]

/-- Accumulate the comma-separated terms in order, flattening
range expansions (src/main.py lines 223-228). -/
def parseTermsAux : List String → Option (List String)
  | [] => some []
  | t :: rest =>
      match expandTerm t with
      | none => none
      | some l =>
          match parseTermsAux rest with
          | none => none
          | some ls => some (l ++ ls)

/-- The `--chapters` parsing block of `main`
(src/main.py lines 220-234), producing `chapters_to_download`. -/
def parse_chapters_spec (chapters_str : String) : Option (List String) :=
  if strContains "," chapters_str then
    parseTermsAux (splitStr ',' chapters_str)
  else if strContains "-" chapters_str then
    expand_range chapters_str
  else some [chapters_str]

/-- The catalog inclusion test of `main` (src/main.py line 286):
`"*" in chapters_to_download or ch.number in chapters_to_download`. -/
def selected (sel : List String) (n : String) : Bool :=
  sel.contains "*" || sel.contains n

/-! ### Chapter catalog builder (src/main.py lines 262-287) -/

/-- Chapter number from an option label (src/main.py lines 270-275):
second whitespace token when the label contains a space, else the label.
`none` models the IndexError when `split()` yields fewer than 2 tokens. -/
def parseLabelNumber (text : String) : Option String :=
  if strContains " " text then (pySplitWs text).get? 1 else some text

/-- The catalog loop body over the (already reversed) option listing
(src/main.py lines 266-287).  Each listing entry carries the nullable
`value` attribute and the option text. -/
def catalogAux (manga_url : String) (sel : List String) :
    List (Option String × String) → Option (List Chapter)
  | [] => some []
  | (value, text) :: rest =>
      match parseLabelNumber text with
      | none => none
      | some number =>
          if truthyStr value then
            match catalogAux manga_url sel rest with
            | none => none
            | some cs =>
                if selected sel number then
                  some ({ id := optStr value, number := number,
                          url := manga_url ++ "/" ++ optStr value ++
                                 "-chapter-" ++ number ++ "-en" } :: cs)
                else some cs
          else catalogAux manga_url sel rest

/-- Chapter catalog: reverse the site-native (newest-first) listing,
then run the loop (src/main.py line 266, `[::-1]`). -/
def buildCatalog (manga_url : String) (sel : List String)
    (listing : List (Option String × String)) : Option (List Chapter) :=
  catalogAux manga_url sel listing.reverse

/-! ### Download orchestration (src/main.py lines 125-174 and 187-329) -/

/-- Command-line inputs of `main` (src/main.py lines 187-217). -/
structure MainArgs where
  url : String
  output : Option String
  force : Bool
  chapters : String
  deriving DecidableEq, Repr

/-- Observable outcome of a `main` run: the collected catalog, the
file-system paths that exist afterwards, and the image URLs fetched
through `requests.get`. -/
structure RunResult where
  chapters : List Chapter
  fs : List String
  fetches : List String
  deriving DecidableEq, Repr

/-- Python `os.mkdir` guarded by `os.path.exists` (src/main.py lines 296-299). -/
def mkdirIfAbsent (fs : List String) (p : String) : List String :=
  if fs.contains p then fs else fs ++ [p]

/-- First loop of `download_images` (src/main.py lines 130-144): download
a not-yet-present cover, keep the non-cover images for the second loop.
Returns the updated file system, the fetched URLs, and the kept images. -/
def diCoverPhase (output_directory : String) :
    List ImgElement → List String → List String →
    List String × List String × List ImgElement
  | [], fs, fetches => (fs, fetches, [])
  | img :: rest, fs, fetches =>
      if !truthyStr img.src || !strContains ".pictures/" (optStr img.src) then
        diCoverPhase output_directory rest fs fetches
      else if is_cover_image (optStr img.src) then
        let path := output_directory ++ "/cover." ++
                    extract_file_extension (optStr img.src)
        if fs.contains path then diCoverPhase output_directory rest fs fetches
        else diCoverPhase output_directory rest (fs ++ [path])
               (fetches ++ [optStr img.src])
      else
        let p := diCoverPhase output_directory rest fs fetches
        (p.1, p.2.1, img :: p.2.2)

/-- Second loop of `download_images` (src/main.py lines 157-174): for each
kept image with truthy `alt`, extract the page number (may raise), create
the chapter directory if absent, fetch the image and write the page file. -/
def diPageLoop (output_directory chapter : String) :
    List ImgElement → List String → List String →
    Option (List String × List String)
  | [], fs, fetches => some (fs, fetches)
  | img :: rest, fs, fetches =>
      if truthyStr img.alt then
        match extract_page_number (optStr img.alt) with
        | none => none
        | some page =>
            let chdir := output_directory ++ "/chapters/" ++ chapter
            let fs1 := if fs.contains chdir then fs else fs ++ [chdir]
            match img.src with
            | none => diPageLoop output_directory chapter rest fs1 fetches
            | some src =>
                let path := chdir ++ "/" ++ page ++ "." ++
                            extract_file_extension src
                let fs2 := if fs1.contains path then fs1 else fs1 ++ [path]
                diPageLoop output_directory chapter rest fs2 (fetches ++ [src])
      else diPageLoop output_directory chapter rest fs fetches

/-- Embeds `download_images` (src/main.py lines 125-174).  Defined in the source
but only reachable from the commented-out download loop of `main`. -/
def download_images (imgs : List ImgElement) (output_directory chapter : String)
    (fs : List String) : Option (List String × List String) :=
  let p := diCoverPhase output_directory imgs fs []
  diPageLoop output_directory chapter p.2.2 p.1 p.2.1

/-- Populate each catalog chapter with its collected pages
(src/main.py lines 290-294). -/
def collectAll (pagesAt : String → List ImgElement) :
    List Chapter → Option (List Chapter)
  | [] => some []
  | ch :: rest =>
      match collect_pages (pagesAt ch.url) with
      | none => none
      | some ps =>
          match collectAll pagesAt rest with
          | none => none
          | some cs => some ({ ch with pages := ps } :: cs)

/-!
#### The `main` pipeline (src/main.py lines 187-329)

The browser is abstracted as the option `listing` and a `pagesAt` oracle
giving the `<img>` elements of each chapter URL, and the file system as
the list of existing paths.  Steps, in source order: derive
`output_directory` (line 215, `args.output or url.split("/")[-2]`),
parse `--chapters` (lines 220-234), `assert len(url) != 0` (line 236),
build the catalog (lines 262-287), collect pages (lines 290-294), create
the output directories (lines 296-299).  The download loop
(lines 301-327) is commented out in the source, so no image URL is ever
fetched and `force` is never consulted.
-/

/-- First step of `main`: `output_directory` (src/main.py line 215);
`none` models the IndexError of `url.split("/")[-2]`. -/
def outputDirOf (args : MainArgs) : Option String :=
  if truthyStr args.output then some (optStr args.output)
  else
    let parts := splitChar '/' args.url.data
    if 2 ≤ parts.length then (parts.map List.asString).get? (parts.length - 2)
    else none

/-- Remainder of the `main` pipeline, continuing from `outputDirOf`;
see the comment there. -/
def mainRun (args : MainArgs) (listing : List (Option String × String))
    (pagesAt : String → List ImgElement) (fs0 : List String) :
    Option RunResult :=
  let url := args.url
  match outputDirOf args with
  | none => none
  | some output_directory =>
    match parse_chapters_spec args.chapters with
    | none => none
    | some sel =>
      if url.length = 0 then none
      else
        let manga_url :=
          String.intercalate "/" ((splitChar '/' url.data).dropLast.map List.asString)
        match buildCatalog manga_url sel listing with
        | none => none
        | some chapters0 =>
          match collectAll pagesAt chapters0 with
          | none => none
          | some chapters1 =>
            let fs1 := mkdirIfAbsent fs0 output_directory
            let fs2 := mkdirIfAbsent fs1 (output_directory ++ "/chapters")
            some { chapters := chapters1, fs := fs2, fetches := [] }

/-! ### Spec-side comparison definitions

These definitions restate parts of the specification's wording; the
refinement theorems below compare them with the embedded source code. -/

/-- Strict variant of the cover-URL pattern, anchored at the head:
a `/`, then a **non-empty** digit run, then a `-` (the specification's
words "`/` then digits then `-`" read with "digits" meaning at least
one digit, unlike the source regex `/[0-9]*-`). -/
def slashPlusAt : List Char → Bool
  | [] => false
  | c :: rest =>
      c == '/' && !(takeDigits rest).1.isEmpty &&
        (takeDigits rest).2.head? == some '-'

/-- Occurrence of the strict pattern anywhere in the string. -/
def searchSlashPlus : List Char → Bool
  | [] => false
  | c :: rest => slashPlusAt (c :: rest) || searchSlashPlus rest

/-- An image qualifies for `collect_pages` when its `src` is truthy and
contains `".pictures/"` and its `alt` is truthy (the claim's wording
"every qualifying image"). -/
def qualifies (img : ImgElement) : Bool :=
  truthyStr img.src && strContains ".pictures/" (optStr img.src) &&
    truthyStr img.alt

/-- The `Page` an image turns into: number from `alt`, URL from `src`
(`none` when `extract_page_number` raises). -/
def pageOf (img : ImgElement) : Option Page :=
  (extract_page_number (optStr img.alt)).map fun n =>
    { number := n, image_url := optStr img.src }

/-- The claim's description of the catalog: over the reversed listing,
keep exactly the entries with a truthy id whose parsed number is selected,
in order, as `Chapter` records. -/
def catSpecAux (m : String) (sel : List String)
    (L : List (Option String × String)) : List Chapter :=
  L.filterMap fun e =>
    match parseLabelNumber e.2 with
    | none => none
    | some n =>
        if truthyStr e.1 && selected sel n then
          some { id := optStr e.1, number := n,
                 url := m ++ "/" ++ optStr e.1 ++ "-chapter-" ++ n ++ "-en" }
        else none

/-- Join terms with commas (the claim's "comma-separated terms"). -/
def joinCommaStr : List String → String
  | [] => ""
  | [t] => t
  | t :: rest => t ++ "," ++ joinCommaStr rest

/-! ### Lemmas about the string primitives -/

theorem consHead_ne_nil (c : Char) (l : List (List Char)) : consHead c l ≠ [] := by
  cases l <;> simp [consHead]

theorem length_consHead (c : Char) (l : List (List Char)) (h : l ≠ []) :
    (consHead c l).length = l.length := by
  cases l with
  | nil => exact absurd rfl h
  | cons x xs => simp [consHead]

theorem splitChar_ne_nil (sep : Char) (cs : List Char) : splitChar sep cs ≠ [] := by
  induction cs with
  | nil => simp [splitChar]
  | cons c rest ih =>
      by_cases h : c = sep
      · simp [splitChar, h]
      · simp only [splitChar, if_neg h]
        exact consHead_ne_nil c _

theorem length_splitChar (sep : Char) (cs : List Char) :
    (splitChar sep cs).length = cs.count sep + 1 := by
  induction cs with
  | nil => simp [splitChar]
  | cons c rest ih =>
      by_cases h : c = sep
      · simp [splitChar, h, List.count_cons, ih]
      · have hc : (c == sep) = false := by simp [h]
        simp [splitChar, if_neg h, length_consHead c _ (splitChar_ne_nil sep rest),
          ih, List.count_cons, hc]

theorem splitChar_eq_single (sep : Char) (cs : List Char) (h : sep ∉ cs) :
    splitChar sep cs = [cs] := by
  induction cs with
  | nil => rfl
  | cons c rest ih =>
      have hc : ¬ c = sep := fun he => h (he ▸ List.mem_cons_self c rest)
      have hr : sep ∉ rest := fun hm => h (List.mem_cons_of_mem c hm)
      simp [splitChar, if_neg hc, ih hr, consHead]

theorem splitChar_append_cons (sep : Char) (xs ys : List Char) (h : sep ∉ xs) :
    splitChar sep (xs ++ sep :: ys) = xs :: splitChar sep ys := by
  induction xs with
  | nil => simp [splitChar]
  | cons x xs ih =>
      have hx : ¬ x = sep := fun he => h (he ▸ List.mem_cons_self x xs)
      have hxs : sep ∉ xs := fun hm => h (List.mem_cons_of_mem x hm)
      simp [splitChar, if_neg hx, ih hxs, consHead]

theorem getLastD_irrel {α : Type} (l : List α) (h : l ≠ []) (a b : α) :
    l.getLastD a = l.getLastD b := by
  rw [List.getLastD_eq_getLast?, List.getLastD_eq_getLast?]
  cases hl : l.getLast? with
  | none => exact absurd (List.getLast?_eq_none_iff.mp hl) h
  | some x => rfl

theorem getLastD_splitChar_append (sep : Char) (xs ys : List Char)
    (h : sep ∉ ys) : ∀ d, (splitChar sep (xs ++ sep :: ys)).getLastD d = ys := by
  induction xs with
  | nil =>
      intro d
      have h1 : splitChar sep (sep :: ys) = [] :: splitChar sep ys := by
        simp [splitChar]
      rw [List.nil_append, h1, List.getLastD_cons, splitChar_eq_single sep ys h]
      rfl
  | cons x xs ih =>
      intro d
      by_cases hx : x = sep
      · subst hx
        have h1 : splitChar x (x :: (xs ++ x :: ys)) =
            [] :: splitChar x (xs ++ x :: ys) := by simp [splitChar]
        rw [List.cons_append, h1, List.getLastD_cons]
        exact ih _
      · show (splitChar sep (x :: (xs ++ sep :: ys))).getLastD d = ys
        simp only [splitChar, if_neg hx]
        cases ht : splitChar sep (xs ++ sep :: ys) with
        | nil => exact absurd ht (splitChar_ne_nil sep _)
        | cons l ls =>
            have hlen : 2 ≤ (splitChar sep (xs ++ sep :: ys)).length := by
              rw [length_splitChar]
              have : 0 < (xs ++ sep :: ys).count sep :=
                List.count_pos_iff.mpr (by simp)
              omega
            have hls : ls ≠ [] := by
              intro he
              rw [ht, he] at hlen
              simp at hlen
            have h1 := ih d
            rw [ht, List.getLastD_cons] at h1
            rw [consHead, List.getLastD_cons]
            rw [getLastD_irrel ls hls (x :: l) l]
            exact h1

theorem isPrefixOf_append_self (p t : List Char) : p.isPrefixOf (p ++ t) = true := by
  induction p with
  | nil => simp [List.isPrefixOf]
  | cons a p ih => simp [List.isPrefixOf, ih]

theorem containsSub_singleton (c : Char) (cs : List Char) :
    containsSub [c] cs = cs.contains c := by
  induction cs with
  | nil => simp [containsSub]
  | cons x rest ih =>
      by_cases hcx : c = x <;>
        simp [containsSub, List.isPrefixOf, ih, List.contains_cons, hcx]

/-! ### Lemmas about digit runs -/

theorem takeDigits_append_eq (cs : List Char) :
    (takeDigits cs).1 ++ (takeDigits cs).2 = cs := by
  induction cs with
  | nil => rfl
  | cons c rest ih =>
      by_cases h : c.isDigit
      · simp [takeDigits, h, ih]
      · simp [takeDigits, h]

theorem takeDigits_isDigit (cs : List Char) :
    ∀ c ∈ (takeDigits cs).1, c.isDigit = true := by
  induction cs with
  | nil => intro c hc; simp [takeDigits] at hc
  | cons x rest ih =>
      intro c hc
      by_cases h : x.isDigit
      · simp only [takeDigits, if_pos h] at hc
        rcases List.mem_cons.mp hc with he | hm
        · exact he ▸ h
        · exact ih c hm
      · simp [takeDigits, h] at hc

theorem takeDigits_of_digits (d b : List Char) (x : Char)
    (hd : ∀ c ∈ d, c.isDigit = true) (hx : x.isDigit = false) :
    takeDigits (d ++ x :: b) = (d, x :: b) := by
  induction d with
  | nil => simp [takeDigits, hx]
  | cons c d ih =>
      have hc : c.isDigit = true := hd c (List.mem_cons_self c d)
      have hd' : ∀ e ∈ d, e.isDigit = true := fun e he =>
        hd e (List.mem_cons_of_mem c he)
      simp [takeDigits, hc, ih hd']

/-! ### Lemmas about whitespace splitting -/

theorem mem_splitWsAux (cs : List Char) :
    ∀ acc l, l ∈ splitWsAux cs acc → ∀ c ∈ l, c ∈ acc ∨ c ∈ cs := by
  induction cs with
  | nil =>
      intro acc l hl c hc
      by_cases h : acc.isEmpty
      · simp [splitWsAux, h] at hl
      · simp only [splitWsAux, if_neg h, List.mem_singleton] at hl
        subst hl
        exact Or.inl (List.mem_reverse.mp hc)
  | cons x rest ih =>
      intro acc l hl c hc
      by_cases hw : x.isWhitespace
      · by_cases ha : acc.isEmpty
        · simp only [splitWsAux, if_pos hw, if_pos ha] at hl
          rcases ih [] l hl c hc with h | h
          · simp at h
          · exact Or.inr (List.mem_cons_of_mem x h)
        · simp only [splitWsAux, if_pos hw, if_neg ha, List.mem_cons] at hl
          rcases hl with he | hm
          · subst he
            exact Or.inl (List.mem_reverse.mp hc)
          · rcases ih [] l hm c hc with h | h
            · simp at h
            · exact Or.inr (List.mem_cons_of_mem x h)
      · simp only [splitWsAux, if_neg hw] at hl
        rcases ih (x :: acc) l hl c hc with h | h
        · rcases List.mem_cons.mp h with he | hm
          · exact Or.inr (he ▸ List.mem_cons_self x rest)
          · exact Or.inl hm
        · exact Or.inr (List.mem_cons_of_mem x h)

/-! ### Lemmas about the regex matchers -/

theorem searchChapterPat_cons (c : Char) (rest : List Char) :
    searchChapterPat (c :: rest) =
      if "chapter-".data.isPrefixOf (c :: rest) then
        match chapterTailMatch ((c :: rest).drop 8) with
        | some m => some ("chapter-".data ++ m)
        | none => searchChapterPat rest
      else searchChapterPat rest := rfl

theorem searchPagePat_cons (c : Char) (rest : List Char) :
    searchPagePat (c :: rest) =
      if "page ".data.isPrefixOf (c :: rest) then
        some ("page ".data ++ (takeDigits ((c :: rest).drop 5)).1)
      else searchPagePat rest := rfl

theorem searchChapterPat_eq_none (cs : List Char)
    (h : containsSub "chapter-".data cs = false) :
    searchChapterPat cs = none := by
  induction cs with
  | nil => rfl
  | cons c rest ih =>
      have h' : "chapter-".data.isPrefixOf (c :: rest) = false ∧
          containsSub "chapter-".data rest = false := by
        simpa [containsSub, Bool.or_eq_false_iff] using h
      rw [searchChapterPat_cons, if_neg (by simp [h'.1])]
      exact ih h'.2

theorem searchChapterPat_head (X m : List Char) (h : chapterTailMatch X = some m) :
    searchChapterPat ("chapter-".data ++ X) = some ("chapter-".data ++ m) := by
  have hpre : "chapter-".data.isPrefixOf
      ('c' :: 'h' :: 'a' :: 'p' :: 't' :: 'e' :: 'r' :: '-' :: X) = true :=
    isPrefixOf_append_self "chapter-".data X
  show searchChapterPat
      ('c' :: 'h' :: 'a' :: 'p' :: 't' :: 'e' :: 'r' :: '-' :: X) = _
  rw [searchChapterPat_cons, if_pos hpre]
  have hd : (('c' :: 'h' :: 'a' :: 'p' :: 't' :: 'e' :: 'r' :: '-' :: X).drop 8) =
      X := rfl
  rw [hd, h]

theorem searchPagePat_shape (cs m : List Char) (h : searchPagePat cs = some m) :
    ∃ ds, m = "page ".data ++ ds ∧ ∀ c ∈ ds, c.isDigit = true := by
  induction cs with
  | nil => simp [searchPagePat] at h
  | cons c rest ih =>
      rw [searchPagePat_cons] at h
      by_cases hp : "page ".data.isPrefixOf (c :: rest) = true
      · rw [if_pos hp, Option.some_inj] at h
        exact ⟨_, h.symm, takeDigits_isDigit _⟩
      · rw [if_neg hp] at h
        exact ih h

theorem slashNumDashAt_decomp (cs : List Char) (h : slashNumDashAt cs = true) :
    ∃ d b, cs = '/' :: (d ++ '-' :: b) ∧ ∀ c ∈ d, c.isDigit = true := by
  cases cs with
  | nil => simp [slashNumDashAt] at h
  | cons c rest =>
      simp only [slashNumDashAt, Bool.and_eq_true, beq_iff_eq] at h
      obtain ⟨hc, hh⟩ := h
      subst hc
      cases ht : (takeDigits rest).2 with
      | nil => rw [ht] at hh; simp at hh
      | cons y b =>
          rw [ht] at hh
          have hy : y = '-' := by simpa using hh
          subst hy
          refine ⟨(takeDigits rest).1, b, ?_, takeDigits_isDigit rest⟩
          have he := takeDigits_append_eq rest
          rw [ht] at he
          rw [he]

theorem slashNumDashAt_of (d b : List Char) (hd : ∀ c ∈ d, c.isDigit = true) :
    slashNumDashAt ('/' :: (d ++ '-' :: b)) = true := by
  have ht : takeDigits (d ++ '-' :: b) = (d, '-' :: b) :=
    takeDigits_of_digits d b '-' hd (by decide)
  simp [slashNumDashAt, ht]

theorem searchSlashNumDash_decomp (cs : List Char) :
    searchSlashNumDash cs = true →
      ∃ a d b, cs = a ++ '/' :: (d ++ '-' :: b) ∧ ∀ c ∈ d, c.isDigit = true := by
  induction cs with
  | nil => intro h; simp [searchSlashNumDash] at h
  | cons c rest ih =>
      intro h
      have h' : slashNumDashAt (c :: rest) = true ∨
          searchSlashNumDash rest = true := by
        simpa [searchSlashNumDash, Bool.or_eq_true] using h
      rcases h' with h1 | h2
      · obtain ⟨d, b, hcs, hd⟩ := slashNumDashAt_decomp _ h1
        exact ⟨[], d, b, by rw [List.nil_append, hcs], hd⟩
      · obtain ⟨a, d, b, hcs, hd⟩ := ih h2
        exact ⟨c :: a, d, b, by rw [List.cons_append, hcs], hd⟩

theorem searchSlashNumDash_append (a : List Char) (tl : List Char)
    (h : searchSlashNumDash tl = true) :
    searchSlashNumDash (a ++ tl) = true := by
  induction a with
  | nil => simpa using h
  | cons x a ih =>
      rw [List.cons_append]
      simp only [searchSlashNumDash, Bool.or_eq_true]
      exact Or.inr ih

theorem searchSlashNumDash_iff (cs : List Char) :
    searchSlashNumDash cs = true ↔
      ∃ a d b, cs = a ++ '/' :: (d ++ '-' :: b) ∧ ∀ c ∈ d, c.isDigit = true := by
  constructor
  · exact searchSlashNumDash_decomp cs
  · rintro ⟨a, d, b, rfl, hd⟩
    apply searchSlashNumDash_append
    simp only [searchSlashNumDash, Bool.or_eq_true]
    exact Or.inl (slashNumDashAt_of d b hd)

theorem slashPlusAt_decomp (cs : List Char) (h : slashPlusAt cs = true) :
    ∃ d b, cs = '/' :: (d ++ '-' :: b) ∧ d ≠ [] ∧ ∀ c ∈ d, c.isDigit = true := by
  cases cs with
  | nil => simp [slashPlusAt] at h
  | cons c rest =>
      simp only [slashPlusAt, Bool.and_eq_true, beq_iff_eq] at h
      obtain ⟨⟨hc, hne⟩, hh⟩ := h
      subst hc
      cases ht : (takeDigits rest).2 with
      | nil => rw [ht] at hh; simp at hh
      | cons y b =>
          rw [ht] at hh
          have hy : y = '-' := by simpa using hh
          subst hy
          have hd1 : (takeDigits rest).1 ≠ [] := by
            simpa [List.isEmpty_iff] using hne
          refine ⟨(takeDigits rest).1, b, ?_, hd1, takeDigits_isDigit rest⟩
          have he := takeDigits_append_eq rest
          rw [ht] at he
          rw [he]

theorem slashPlusAt_of (d b : List Char) (hne : d ≠ [])
    (hd : ∀ c ∈ d, c.isDigit = true) :
    slashPlusAt ('/' :: (d ++ '-' :: b)) = true := by
  have ht : takeDigits (d ++ '-' :: b) = (d, '-' :: b) :=
    takeDigits_of_digits d b '-' hd (by decide)
  simp [slashPlusAt, ht, List.isEmpty_iff, hne]

theorem searchSlashPlus_decomp (cs : List Char) :
    searchSlashPlus cs = true →
      ∃ a d b, cs = a ++ '/' :: (d ++ '-' :: b) ∧ d ≠ [] ∧
        ∀ c ∈ d, c.isDigit = true := by
  induction cs with
  | nil => intro h; simp [searchSlashPlus] at h
  | cons c rest ih =>
      intro h
      have h' : slashPlusAt (c :: rest) = true ∨ searchSlashPlus rest = true := by
        simpa [searchSlashPlus, Bool.or_eq_true] using h
      rcases h' with h1 | h2
      · obtain ⟨d, b, hcs, hne, hd⟩ := slashPlusAt_decomp _ h1
        exact ⟨[], d, b, by rw [List.nil_append, hcs], hne, hd⟩
      · obtain ⟨a, d, b, hcs, hne, hd⟩ := ih h2
        exact ⟨c :: a, d, b, by rw [List.cons_append, hcs], hne, hd⟩

theorem searchSlashPlus_append (a : List Char) (tl : List Char)
    (h : searchSlashPlus tl = true) :
    searchSlashPlus (a ++ tl) = true := by
  induction a with
  | nil => simpa using h
  | cons x a ih =>
      rw [List.cons_append]
      simp only [searchSlashPlus, Bool.or_eq_true]
      exact Or.inr ih

theorem searchSlashPlus_iff (cs : List Char) :
    searchSlashPlus cs = true ↔
      ∃ a d b, cs = a ++ '/' :: (d ++ '-' :: b) ∧ d ≠ [] ∧
        ∀ c ∈ d, c.isDigit = true := by
  constructor
  · exact searchSlashPlus_decomp cs
  · rintro ⟨a, d, b, rfl, hne, hd⟩
    apply searchSlashPlus_append
    simp only [searchSlashPlus, Bool.or_eq_true]
    exact Or.inl (slashPlusAt_of d b hne hd)

/-! ### Lemmas about the chapter selector -/

theorem asString_data (s : String) : s.data.asString = s := rfl

theorem strContains_comma (s : String) : strContains "," s = s.data.contains ',' :=
  containsSub_singleton ',' s.data

theorem strContains_dash (s : String) : strContains "-" s = s.data.contains '-' :=
  containsSub_singleton '-' s.data

theorem intRangeIncl_empty (A B : Int) (h : B < A) : intRangeIncl A B = [] := by
  unfold intRangeIncl
  rw [Int.toNat_of_nonpos (by omega)]
  rfl

theorem expand_range_eq_of (a b : String) (A B : Int)
    (ha : pyInt a = some A) (hb : pyInt b = some B)
    (hna : '-' ∉ a.data) (hnb : '-' ∉ b.data) :
    expand_range (a ++ "-" ++ b) = some ((intRangeIncl A B).map toString) := by
  have hdata : (a ++ "-" ++ b).data = a.data ++ '-' :: b.data := by
    rw [String.data_append, String.data_append]
    simp
  have hsplit : splitChar '-' ((a ++ "-" ++ b).data) = [a.data, b.data] := by
    rw [hdata, splitChar_append_cons '-' a.data b.data hna,
      splitChar_eq_single '-' b.data hnb]
  unfold expand_range
  rw [hsplit]
  simp only [List.map_cons, List.map_nil, asString_data]
  show (match pyInt a, pyInt b with
        | some a', some b' => some ((intRangeIncl a' b').map toString)
        | _, _ => none) = some ((intRangeIncl A B).map toString)
  rw [ha, hb]

theorem parseTermsAux_eq (ts : List String) :
    parseTermsAux ts = (ts.mapM expandTerm).map List.flatten := by
  induction ts with
  | nil => rfl
  | cons t rest ih =>
      simp only [parseTermsAux, ih, List.mapM_cons]
      cases he : expandTerm t with
      | none => simp
      | some l =>
          cases hm : rest.mapM expandTerm <;> simp [hm]

theorem splitChar_joinComma (ts : List String) (hne : ts ≠ [])
    (h : ∀ t ∈ ts, ',' ∉ t.data) :
    splitChar ',' (joinCommaStr ts).data = ts.map String.data := by
  induction ts with
  | nil => exact absurd rfl hne
  | cons t rest ih =>
      cases rest with
      | nil =>
          show splitChar ',' t.data = [t.data]
          exact splitChar_eq_single ',' t.data (h t (List.mem_cons_self t []))
      | cons u rest' =>
          have hd : (t ++ "," ++ joinCommaStr (u :: rest')).data =
              t.data ++ ',' :: (joinCommaStr (u :: rest')).data := by
            rw [String.data_append, String.data_append]
            simp
          show splitChar ',' (t ++ "," ++ joinCommaStr (u :: rest')).data = _
          rw [hd, splitChar_append_cons ',' _ _
            (h t (List.mem_cons_self t (u :: rest')))]
          rw [ih (by simp) fun x hx => h x (List.mem_cons_of_mem t hx)]
          rfl

theorem strContains_comma_joinComma (t u : String) (rest : List String) :
    strContains "," (joinCommaStr (t :: u :: rest)) = true := by
  rw [strContains_comma]
  have hd : (joinCommaStr (t :: u :: rest)).data =
      t.data ++ ',' :: (joinCommaStr (u :: rest)).data := by
    show (t ++ "," ++ joinCommaStr (u :: rest)).data = _
    rw [String.data_append, String.data_append]
    simp
  rw [hd]
  simp

/-! ### Characterisation lemmas for the collector and the catalog -/

theorem collect_pages_cons (img : ImgElement) (rest : List ImgElement) :
    collect_pages (img :: rest) =
      if !truthyStr img.src || !strContains ".pictures/" (optStr img.src) then
        collect_pages rest
      else if truthyStr img.alt then
        match extract_page_number (optStr img.alt) with
        | none => none
        | some pn =>
            match collect_pages rest with
            | none => none
            | some ps => some (⟨pn, optStr img.src⟩ :: ps)
      else collect_pages rest := rfl

theorem collect_pages_eq_filter_mapM (imgs : List ImgElement) :
    collect_pages imgs = (imgs.filter qualifies).mapM pageOf := by
  induction imgs with
  | nil => rfl
  | cons img rest ih =>
      by_cases h1 : truthyStr img.src = true
      · by_cases h2 : strContains ".pictures/" (optStr img.src) = true
        · by_cases h3 : truthyStr img.alt = true
          · have hq : qualifies img = true := by simp [qualifies, h1, h2, h3]
            rw [collect_pages_cons, if_neg (by simp [h1, h2]), if_pos h3,
              List.filter_cons_of_pos hq, List.mapM_cons]
            cases hp : extract_page_number (optStr img.alt) with
            | none => simp [pageOf, hp]
            | some pn =>
                rw [ih]
                cases hm : (rest.filter qualifies).mapM pageOf <;>
                  simp [pageOf, hp, hm]
          · have hq : ¬ qualifies img = true := by simp [qualifies, h3]
            rw [collect_pages_cons, if_neg (by simp [h1, h2]), if_neg h3,
              List.filter_cons_of_neg hq, ih]
        · -- no ".pictures/" marker: skipped
          have hq : ¬ qualifies img = true := by simp [qualifies, h2]
          rw [collect_pages_cons, if_pos (by simp [h2]),
            List.filter_cons_of_neg hq, ih]
      · -- falsy src: skipped
        have hq : ¬ qualifies img = true := by simp [qualifies, h1]
        rw [collect_pages_cons, if_pos (by simp [h1]),
          List.filter_cons_of_neg hq, ih]

theorem extract_page_number_ne_cover (t : String) :
    extract_page_number t ≠ some "cover" := by
  intro h
  unfold extract_page_number at h
  cases hm : searchPagePat t.data with
  | none =>
      rw [hm] at h
      exact absurd h (by decide)
  | some m =>
      rw [hm] at h
      obtain ⟨ds, rfl, hds⟩ := searchPagePat_shape t.data m hm
      have h' : ((splitWsAux ("page ".data ++ ds) []).map List.asString).get? 1 =
          some "cover" := h
      obtain ⟨l, hl, hasl⟩ := List.mem_map.mp (List.get?_mem h')
      have hld : l = "cover".data := by
        have := congrArg String.data hasl
        simpa using this
      have hcl : 'c' ∈ l := by rw [hld]; decide
      rcases mem_splitWsAux _ [] l hl 'c' hcl with hc | hc
      · simp at hc
      · rcases List.mem_append.mp hc with hc1 | hc2
        · exact absurd hc1 (by decide)
        · exact absurd (hds 'c' hc2) (by decide)

theorem catalogAux_cons (m : String) (sel : List String) (v : Option String)
    (t : String) (rest : List (Option String × String)) :
    catalogAux m sel ((v, t) :: rest) =
      match parseLabelNumber t with
      | none => none
      | some number =>
          if truthyStr v then
            match catalogAux m sel rest with
            | none => none
            | some cs =>
                if selected sel number then
                  some ({ id := optStr v, number := number,
                          url := m ++ "/" ++ optStr v ++ "-chapter-" ++
                                 number ++ "-en" } :: cs)
                else some cs
          else catalogAux m sel rest := rfl

theorem catalogAux_spec (m : String) (sel : List String) :
    ∀ (L : List (Option String × String)) (cat : List Chapter),
      catalogAux m sel L = some cat → cat = catSpecAux m sel L := by
  intro L
  induction L with
  | nil =>
      intro cat h
      simp only [catalogAux, Option.some_inj] at h
      rw [← h]
      rfl
  | cons e L ih =>
      intro cat h
      obtain ⟨v, t⟩ := e
      rw [catalogAux_cons] at h
      cases hp : parseLabelNumber t with
      | none => simp only [hp] at h; exact Option.noConfusion h
      | some n =>
          simp only [hp] at h
          by_cases hv : truthyStr v = true
          · rw [if_pos hv] at h
            cases hc : catalogAux m sel L with
            | none => simp only [hc] at h; exact Option.noConfusion h
            | some cs =>
                simp only [hc] at h
                by_cases hs : selected sel n = true
                · rw [if_pos hs, Option.some_inj] at h
                  have hR : catSpecAux m sel ((v, t) :: L) =
                      { id := optStr v, number := n,
                        url := m ++ "/" ++ optStr v ++ "-chapter-" ++
                               n ++ "-en" } :: catSpecAux m sel L := by
                    simp [catSpecAux, List.filterMap_cons, hp, hv, hs]
                  rw [← h, hR, ih cs hc]
                · rw [if_neg hs, Option.some_inj] at h
                  have hs' : selected sel n = false := by
                    simpa using hs
                  have hR : catSpecAux m sel ((v, t) :: L) =
                      catSpecAux m sel L := by
                    simp [catSpecAux, List.filterMap_cons, hp, hv, hs']
                  rw [← h, hR]
                  exact ih cs hc
          · rw [if_neg hv] at h
            have hv' : truthyStr v = false := by simpa using hv
            have hR : catSpecAux m sel ((v, t) :: L) =
                catSpecAux m sel L := by
              simp [catSpecAux, List.filterMap_cons, hp, hv']
            rw [hR]
            exact ih cat h

theorem contains_eq_false_of_not_mem (c : Char) (l : List Char) (h : c ∉ l) :
    l.contains c = false := by
  cases hc : l.contains c with
  | false => rfl
  | true => exact absurd (by simpa using hc) h

theorem contains_eq_true_of_mem (c : Char) (l : List Char) (h : c ∈ l) :
    l.contains c = true := by
  simpa using h

theorem map_asString_data (l : List String) :
    (l.map String.data).map List.asString = l := by
  induction l with
  | nil => rfl
  | cons t rest ih => simp [ih, asString_data]

theorem chapterTailMatch_decimal (ds rest : List Char) (e : Char)
    (hds : ds ≠ []) (hd : ∀ c ∈ ds, c.isDigit = true)
    (he : e.isDigit = true) :
    chapterTailMatch (ds ++ '.' :: e :: rest) = some (ds ++ ['.', e]) := by
  cases ds with
  | nil => exact absurd rfl hds
  | cons d0 ds' =>
      have ht : takeDigits ((d0 :: ds') ++ '.' :: e :: rest) =
          (d0 :: ds', '.' :: e :: rest) :=
        takeDigits_of_digits (d0 :: ds') (e :: rest) '.' hd (by decide)
      unfold chapterTailMatch
      rw [ht]
      simp [he]

theorem extract_chapter_decimal (ds rest : List Char) (e : Char)
    (hds : ds ≠ []) (hd : ∀ c ∈ ds, c.isDigit = true)
    (he : e.isDigit = true) :
    extract_chapter_number
        (List.asString ("chapter-".data ++ (ds ++ '.' :: e :: rest))) =
      some (List.asString (ds ++ ['.', e])) := by
  have hm := chapterTailMatch_decimal ds rest e hds hd he
  have hs := searchChapterPat_head _ _ hm
  unfold extract_chapter_number
  have hdata : (List.asString ("chapter-".data ++ (ds ++ '.' :: e :: rest))).data
      = "chapter-".data ++ (ds ++ '.' :: e :: rest) := rfl
  rw [hdata, hs]
  show ((splitChar '-' ("chapter-".data ++ (ds ++ ['.', e]))).map
      List.asString).get? 1 = some (List.asString (ds ++ ['.', e]))
  have hnd : '-' ∉ ds ++ ['.', e] := by
    intro hmem
    rcases List.mem_append.mp hmem with h1 | h2
    · exact absurd (hd '-' h1) (by decide)
    · rcases List.mem_cons.mp h2 with h3 | h4
      · exact absurd h3 (by decide)
      · rcases List.mem_cons.mp h4 with h5 | h6
        · rw [← h5] at he
          exact absurd he (by decide)
        · simp at h6
  have hstep : ("chapter-".data ++ (ds ++ ['.', e])) =
      "chapter".data ++ '-' :: (ds ++ ['.', e]) := rfl
  rw [hstep, splitChar_append_cons '-' _ _ (by decide),
    splitChar_eq_single '-' _ hnd]
  rfl

theorem extract_chapter_number_of_no_match (s : String)
    (h : strContains "chapter-" s = false) :
    extract_chapter_number s = some "0" := by
  unfold extract_chapter_number
  rw [searchChapterPat_eq_none s.data h]

theorem mainRun_none_of_parse (args : MainArgs)
    (listing : List (Option String × String))
    (pagesAt : String → List ImgElement) (fs : List String)
    (h : parse_chapters_spec args.chapters = none) :
    mainRun args listing pagesAt fs = none := by
  unfold mainRun
  cases ho : outputDirOf args with
  | none => simp [ho]
  | some od => simp [ho, h]

/-! ### The claims -/

/-- Claim C1 (code bug).  The claim says that with force-redownload
enabled a second run re-fetches every page.  In the source the whole
download loop (src/main.py lines 301-327) is commented out, so `main`
never calls `download_images` and never fetches an image: on a catalog
with one chapter of one page and `force := true`, the run performs `0`
fetches where the claim requires `1`; with `force := false` the first
run already fetches nothing (so no chapter directory ever appears
either).  This theorem evaluates the embedded pipeline at that input. -/
theorem C1_force_second_run_zero_fetches :
    ((mainRun { url := "https://site/comic/foo/x-chapter-1-en",
                output := some "out", force := true, chapters := "*" }
        [(some "a", "Chapter 1")]
        (fun _ => [{ src := some "https://x/.pictures/1-p.jpg",
                     alt := some "page 1" }])
        ["out", "out/chapters", "out/chapters/1",
         "out/chapters/1/1.jpg"]).map
      fun r => (r.fetches, (r.chapters.map fun ch => ch.pages.length).sum))
      = some ([], 1)
  ∧ ((mainRun { url := "https://site/comic/foo/x-chapter-1-en",
                output := some "out", force := false, chapters := "*" }
        [(some "a", "Chapter 1")]
        (fun _ => [{ src := some "https://x/.pictures/1-p.jpg",
                     alt := some "page 1" }])
        []).map fun r => r.fetches) = some [] := by
  exact ⟨by decide, by decide⟩

/-- Claim C2, counterexample.  A cover-like image (`alt` without a page
number, `src` under `.pictures/`) is NOT excluded from `pages`: the
fallback page number of this deployment is `"0"`, never the sentinel
`"cover"`, and `collect_pages` appends the image as an ordinary page. -/
theorem C2_cover_image_appended :
    extract_page_number "cover art" = some "0"
  ∧ collect_pages [{ src := some "https://x/.pictures/cover.jpg",
                     alt := some "cover art" }]
      = some [{ number := "0",
                image_url := "https://x/.pictures/cover.jpg" }] := by
  exact ⟨by decide, by decide⟩

/-- Claim C2, amended.  `collect_pages` performs no cover exclusion at
all: it returns exactly the qualifying images (truthy `src` containing
`".pictures/"`, truthy `alt`) as `Page`s in DOM encounter order, and
`extract_page_number` can never produce the sentinel `"cover"` (its
fallback is `"0"`), so no image is ever recorded as a Cover here —
cover handling exists only in the dead `download_images` function. -/
theorem C2_collect_pages_no_cover_exclusion :
    (∀ imgs : List ImgElement,
        collect_pages imgs = (imgs.filter qualifies).mapM pageOf)
  ∧ ∀ t : String, extract_page_number t ≠ some "cover" :=
  ⟨collect_pages_eq_filter_mapM, extract_page_number_ne_cover⟩

/-- Claim C2, witness for the amended theorem at concrete inputs. -/
theorem C2_collect_pages_no_cover_exclusion_witness :
    collect_pages [{ src := some "https://x/.pictures/1-a.jpg",
                     alt := some "page 1" }]
      = ([({ src := some "https://x/.pictures/1-a.jpg",
             alt := some "page 1" } : ImgElement)].filter qualifies).mapM pageOf
  ∧ extract_page_number "cover art" ≠ some "cover" :=
  ⟨C2_collect_pages_no_cover_exclusion.1 _,
   C2_collect_pages_no_cover_exclusion.2 "cover art"⟩

/-- Claim C3, counterexample.  The source never lowercases the
extension: `extract_file_extension("https://x/y/img.PNG")` is `"PNG"`,
not `"png"` as the claim requires. -/
theorem C3_uppercase_not_lowered :
    extract_file_extension "https://x/y/img.PNG" = "PNG"
  ∧ ("PNG" : String) ≠ "png" := by
  exact ⟨by decide, by decide⟩

/-- Claim C3, amended.  `extract_file_extension` returns the last
dot-separated part of the final `/`-delimited segment **verbatim** (no
lowercasing) when that segment contains a dot, and `"jpg"` otherwise. -/
theorem C3_extension_kept_verbatim :
    (∀ (a stem ext : List Char), '/' ∉ stem → '/' ∉ ext → '.' ∉ ext →
        extract_file_extension
            (List.asString (a ++ '/' :: (stem ++ '.' :: ext))) =
          List.asString ext)
  ∧ (∀ (a seg : List Char), '/' ∉ seg → '.' ∉ seg →
        extract_file_extension (List.asString (a ++ '/' :: seg)) = "jpg") := by
  constructor
  · intro a stem ext h1 h2 h3
    have hseg : '/' ∉ stem ++ '.' :: ext := by
      intro hm
      rcases List.mem_append.mp hm with h | h
      · exact h1 h
      · rcases List.mem_cons.mp h with h | h
        · exact absurd h (by decide)
        · exact h2 h
    simp only [extract_file_extension]
    rw [show (List.asString (a ++ '/' :: (stem ++ '.' :: ext))).data =
        a ++ '/' :: (stem ++ '.' :: ext) from rfl]
    rw [getLastD_splitChar_append '/' a _ hseg []]
    have hlen : 2 ≤ (splitChar '.' (stem ++ '.' :: ext)).length := by
      rw [length_splitChar]
      have : 0 < (stem ++ '.' :: ext).count '.' :=
        List.count_pos_iff.mpr (by simp)
      omega
    rw [if_pos hlen, getLastD_splitChar_append '.' stem ext h3 []]
  · intro a seg h1 h2
    simp only [extract_file_extension]
    rw [show (List.asString (a ++ '/' :: seg)).data = a ++ '/' :: seg from rfl]
    rw [getLastD_splitChar_append '/' a seg h1 []]
    rw [splitChar_eq_single '.' seg h2]
    rfl

/-- Claim C3, witness for the amended theorem at the claim's inputs. -/
theorem C3_extension_kept_verbatim_witness :
    extract_file_extension "https://x/y/img.PNG" = "PNG"
  ∧ extract_file_extension "https://x/y/imgnoext" = "jpg" := by
  constructor
  · have h := C3_extension_kept_verbatim.1 "https://x/y".data "img".data
      "PNG".data (by decide) (by decide) (by decide)
    have e1 : List.asString ("https://x/y".data ++ '/' ::
        ("img".data ++ '.' :: "PNG".data)) = "https://x/y/img.PNG" := by decide
    rw [e1] at h
    exact h
  · have h := C3_extension_kept_verbatim.2 "https://x/y".data "imgnoext".data
      (by decide) (by decide)
    have e1 : List.asString ("https://x/y".data ++ '/' :: "imgnoext".data) =
        "https://x/y/imgnoext" := by decide
    rw [e1] at h
    exact h

/-- Claim C4 (code bug).  `extract_page_number` is NOT total: the regex
`page [0-9]*` matches `"page "` with an empty digit run, after which
`m.group().split()[1]` raises IndexError (modelled as `none`) — e.g. on
`"page of Foo"`.  The documented behaviours on a real match and on no
match do hold (`"page 7 of Foo"` gives `"7"`; `"cover art"` gives the
fallback `"0"`). -/
theorem C4_page_number_raises :
    extract_page_number "page of Foo" = none
  ∧ extract_page_number "page 7 of Foo" = some "7"
  ∧ extract_page_number "cover art" = some "0" := by
  exact ⟨by decide, by decide, by decide⟩

/-- Claim C5, counterexample.  The regex `chapter-[0-9]*\.?[0-9]` keeps
only ONE digit after the decimal point: on `"chapter-12.55"` the code
returns `"12.5"`, not the full numeric portion `"12.55"`. -/
theorem C5_truncates_second_decimal_digit :
    extract_chapter_number "chapter-12.55" = some "12.5"
  ∧ ("12.5" : String) ≠ "12.55" := by
  exact ⟨by decide, by decide⟩

/-- Claim C5, amended.  For a text starting `chapter-` followed by a
non-empty digit run, a dot and a digit, `extract_chapter_number` returns
the digit run, the dot and exactly that one digit — any further
characters (including further decimal digits) are dropped; and it
returns `"0"` for every string that does not contain `"chapter-"`. -/
theorem C5_chapter_number_amended :
    (∀ (ds rest : List Char) (e : Char), ds ≠ [] →
        (∀ c ∈ ds, c.isDigit = true) → e.isDigit = true →
        extract_chapter_number
            (List.asString ("chapter-".data ++ (ds ++ '.' :: e :: rest))) =
          some (List.asString (ds ++ ['.', e])))
  ∧ ∀ s : String, strContains "chapter-" s = false →
      extract_chapter_number s = some "0" :=
  ⟨extract_chapter_decimal, extract_chapter_number_of_no_match⟩

/-- Claim C5, witness: the claim's own example still holds
(`"chapter-12.5-en"` gives `"12.5"`), and the fallback is `"0"`. -/
theorem C5_chapter_number_amended_witness :
    extract_chapter_number "chapter-12.5-en" = some "12.5"
  ∧ extract_chapter_number "cover art" = some "0" := by
  constructor
  · have h := C5_chapter_number_amended.1 ['1', '2'] "-en".data '5'
      (by decide) (by decide) (by decide)
    have e1 : List.asString ("chapter-".data ++
        (['1', '2'] ++ '.' :: '5' :: "-en".data)) = "chapter-12.5-en" := by
      decide
    have e2 : List.asString (['1', '2'] ++ ['.', '5']) = "12.5" := by decide
    rw [e1, e2] at h
    exact h
  · exact C5_chapter_number_amended.2 "cover art" (by decide)

/-- Claim C6 (confirmed).  Whenever the catalog build succeeds, the
catalog equals exactly the reversed-listing order filtered to entries
with a truthy id whose parsed number is selected (wildcard or
membership), each with its constructed URL — i.e. chronological order,
non-empty ids only, inclusion iff selected, deterministically. -/
theorem C6_catalog_characterisation :
    ∀ (m : String) (sel : List String)
      (listing : List (Option String × String)) (cat : List Chapter),
      buildCatalog m sel listing = some cat →
      cat = catSpecAux m sel listing.reverse :=
  fun m sel listing cat h => catalogAux_spec m sel listing.reverse cat h

/-- Claim C6, witness: the claim's example listing
`[("id2", "Chapter 2"), ("id1", "Chapter 1")]` with the wildcard yields
chapters numbered `["1", "2"]` in that order. -/
theorem C6_catalog_characterisation_witness :
    buildCatalog "https://site/comic/foo" ["*"]
        [(some "id2", "Chapter 2"), (some "id1", "Chapter 1")] =
      some [{ id := "id1", number := "1",
              url := "https://site/comic/foo/id1-chapter-1-en" },
            { id := "id2", number := "2",
              url := "https://site/comic/foo/id2-chapter-2-en" }]
  ∧ [{ id := "id1", number := "1",
       url := "https://site/comic/foo/id1-chapter-1-en" },
     { id := "id2", number := "2",
       url := "https://site/comic/foo/id2-chapter-2-en" }] =
      catSpecAux "https://site/comic/foo" ["*"]
        [(some "id2", "Chapter 2"), (some "id1", "Chapter 1")].reverse
  ∧ ([{ id := "id1", number := "1",
        url := "https://site/comic/foo/id1-chapter-1-en" },
      { id := "id2", number := "2",
        url := "https://site/comic/foo/id2-chapter-2-en" }] :
      List Chapter).map Chapter.number = ["1", "2"] := by
  refine ⟨by decide, C6_catalog_characterisation _ _ _ _ (by decide), by decide⟩

/-- Claim C7 (confirmed).  A range term with `int()`-parseable bounds
expands inclusively to the decimal strings of `[A, B]`; comma-separated
terms accumulate in order as the union (concatenation) of their
expansions; and `"*"` parses to the wildcard token, which the selection
test accepts for every chapter number. -/
theorem C7_selector_expansion :
    (∀ (a b : String) (A B : Int), pyInt a = some A → pyInt b = some B →
        '-' ∉ a.data → '-' ∉ b.data →
        expand_range (a ++ "-" ++ b) =
          some ((intRangeIncl A B).map toString))
  ∧ (∀ ts : List String, 2 ≤ ts.length → (∀ t ∈ ts, ',' ∉ t.data) →
        parse_chapters_spec (joinCommaStr ts) =
          (ts.mapM expandTerm).map List.flatten)
  ∧ parse_chapters_spec "*" = some ["*"]
  ∧ ∀ n : String, selected ["*"] n = true := by
  refine ⟨expand_range_eq_of, ?_, by decide, ?_⟩
  · intro ts hlen hfree
    cases ts with
    | nil => simp at hlen
    | cons t rest =>
        cases rest with
        | nil => simp at hlen
        | cons u rest' =>
            unfold parse_chapters_spec
            rw [if_pos (strContains_comma_joinComma t u rest')]
            have hsp : splitStr ',' (joinCommaStr (t :: u :: rest')) =
                t :: u :: rest' := by
              unfold splitStr
              rw [splitChar_joinComma _ (by simp) hfree]
              exact map_asString_data (t :: u :: rest')
            rw [hsp, parseTermsAux_eq]
  · intro n
    show (["*"].contains "*" || ["*"].contains n) = true
    rw [show (["*"].contains "*") = true from by decide, Bool.true_or]

/-- Claim C7, witness at the claim's own examples. -/
theorem C7_selector_expansion_witness :
    expand_range "1-3" = some ["1", "2", "3"]
  ∧ parse_chapters_spec "1,3-4,7" = some ["1", "3", "4", "7"]
  ∧ selected ["*"] "10.5" = true := by
  refine ⟨?_, ?_, C7_selector_expansion.2.2.2 "10.5"⟩
  · have h := C7_selector_expansion.1 "1" "3" 1 3 (by decide) (by decide)
      (by decide) (by decide)
    have e : ("1" ++ "-" ++ "3" : String) = "1-3" := by decide
    rw [e] at h
    rw [h]
    decide
  · have h := C7_selector_expansion.2.1 ["1", "3-4", "7"] (by decide)
      (by decide)
    have e : joinCommaStr ["1", "3-4", "7"] = "1,3-4,7" := by decide
    rw [e] at h
    rw [h]
    decide

/-- Claim C8, counterexample.  A malformed BARE term (no `-`) is
accepted silently: `--chapters abc` parses to `["abc"]` with no error,
and the whole run completes (it just selects nothing) — contradicting
the claim that every malformed term aborts the run. -/
theorem C8_bare_malformed_term_accepted :
    parse_chapters_spec "abc" = some ["abc"]
  ∧ (mainRun { url := "https://site/comic/foo/x-chapter-1-en",
               output := some "out", force := false, chapters := "abc" }
      [(some "a", "Chapter 1")] (fun _ => []) []).isSome = true := by
  exact ⟨by decide, by decide⟩

/-- Claim C8, amended.  Only malformed RANGE terms abort: a term
containing `-` whose pieces are not exactly two `int()`-parseable bounds
makes the parse raise ValueError (modelled `none`), and any parse
failure aborts `main` before any navigation — the result is `none`
regardless of the page oracle; bare malformed terms are kept silently. -/
theorem C8_malformed_range_aborts :
    (∀ (args : MainArgs) (listing : List (Option String × String))
        (pagesAt : String → List ImgElement) (fs : List String),
        parse_chapters_spec args.chapters = none →
        mainRun args listing pagesAt fs = none)
  ∧ (∀ s e : String, ',' ∉ s.data → ',' ∉ e.data → '-' ∉ s.data →
        '-' ∉ e.data → (pyInt s = none ∨ pyInt e = none) →
        parse_chapters_spec (s ++ "-" ++ e) = none) := by
  constructor
  · exact mainRun_none_of_parse
  · intro s e hcs hce hds hde hie
    have hdata : (s ++ "-" ++ e).data = s.data ++ '-' :: e.data := by
      rw [String.data_append, String.data_append]
      simp
    have hmem : ',' ∉ s.data ++ '-' :: e.data := by
      intro hm
      rcases List.mem_append.mp hm with h | h
      · exact hcs h
      · rcases List.mem_cons.mp h with h | h
        · exact absurd h (by decide)
        · exact hce h
    have hnc : strContains "," (s ++ "-" ++ e) = false := by
      rw [strContains_comma, hdata]
      exact contains_eq_false_of_not_mem ',' _ hmem
    have hnd : strContains "-" (s ++ "-" ++ e) = true := by
      rw [strContains_dash, hdata]
      exact contains_eq_true_of_mem '-' _ (by simp)
    unfold parse_chapters_spec
    rw [if_neg (by simp [hnc]), if_pos hnd]
    unfold expand_range
    have hsplit : splitChar '-' ((s ++ "-" ++ e).data) = [s.data, e.data] := by
      rw [hdata, splitChar_append_cons '-' _ _ hds,
        splitChar_eq_single '-' _ hde]
    rw [hsplit]
    simp only [List.map_cons, List.map_nil, asString_data]
    show (match pyInt s, pyInt e with
          | some a', some b' => some ((intRangeIncl a' b').map toString)
          | _, _ => none) = none
    rcases hie with h | h
    · rw [h]
    · rw [h]
      cases hps : pyInt s <;> rfl

/-- Claim C8, witness: the amended abort at the claim's example
`"a-b"`, propagated through the whole pipeline. -/
theorem C8_malformed_range_aborts_witness :
    mainRun { url := "https://site/comic/foo/x-chapter-1-en",
              output := some "out", force := false, chapters := "a-b" }
      [(some "a", "Chapter 1")] (fun _ => []) [] = none := by
  apply C8_malformed_range_aborts.1
  have h := C8_malformed_range_aborts.2 "a" "b" (by decide) (by decide)
    (by decide) (by decide) (Or.inl (by decide))
  have e : ("a" ++ "-" ++ "b" : String) = "a-b" := by decide
  rw [e] at h
  exact h

/-- Claim C9, counterexample.  The source regex `/[0-9]*-` allows an
EMPTY digit run, so on a URL whose final segment begins with a dash
(the literal below) `is_cover_image` returns `false` although the
string nowhere contains a slash, then at least one digit, then a dash —
refuting the claim's iff under the plain reading of "digits". -/
theorem C9_slash_dash_without_digits :
    is_cover_image "https://x/.pictures/-a.jpg" = false
  ∧ ¬ ∃ a d b, "https://x/.pictures/-a.jpg".data =
        a ++ '/' :: (d ++ '-' :: b) ∧ d ≠ [] ∧ ∀ c ∈ d, c.isDigit = true := by
  constructor
  · decide
  · intro h
    have ht := (searchSlashPlus_iff ("https://x/.pictures/-a.jpg".data)).mpr h
    exact absurd ht (by decide)

/-- Claim C9, amended.  `is_cover_image` returns true iff the URL does
not contain `/`, then a possibly EMPTY digit run, then `-` (the exact
pattern of the source regex `/[0-9]*-`). -/
theorem C9_cover_iff_no_slash_digits_dash :
    ∀ s : String, is_cover_image s = true ↔
      ¬ ∃ a d b, s.data = a ++ '/' :: (d ++ '-' :: b) ∧
          ∀ c ∈ d, c.isDigit = true := by
  intro s
  unfold is_cover_image
  constructor
  · intro h hex
    have ht := (searchSlashNumDash_iff s.data).mpr hex
    rw [ht] at h
    exact absurd h (by decide)
  · intro h
    cases hb : searchSlashNumDash s.data with
    | true => exact absurd ((searchSlashNumDash_iff s.data).mp hb) h
    | false => rfl

/-- Claim C9, witness: the claim's positive example through the amended
iff. -/
theorem C9_cover_iff_witness :
    is_cover_image "https://x/.pictures/cover.jpg" = true := by
  apply (C9_cover_iff_no_slash_digits_dash "https://x/.pictures/cover.jpg").mpr
  intro hex
  have ht := (searchSlashNumDash_iff ("https://x/.pictures/cover.jpg".data)).mpr hex
  exact absurd ht (by decide)

/-- Claim C10 (confirmed).  A descending integer range `A-B` with
`B < A` expands to the empty list without raising: `range(A, B + 1)` is
empty, and `expand_range` succeeds with `some []`. -/
theorem C10_descending_range_empty :
    ∀ (a b : String) (A B : Int), pyInt a = some A → pyInt b = some B →
      '-' ∉ a.data → '-' ∉ b.data → B < A →
      expand_range (a ++ "-" ++ b) = some [] := by
  intro a b A B ha hb hna hnb hlt
  rw [expand_range_eq_of a b A B ha hb hna hnb, intRangeIncl_empty A B hlt]
  rfl

/-- Claim C10, witness at `"3-1"`. -/
theorem C10_descending_range_empty_witness :
    expand_range "3-1" = some [] := by
  have h := C10_descending_range_empty "3" "1" 3 1 (by decide) (by decide)
    (by decide) (by decide) (by decide)
  have e : ("3" ++ "-" ++ "1" : String) = "3-1" := by decide
  rw [e] at h
  exact h

end ComickDL
